import Mathlib

/-!
Verification of the NeMo Jasper convolutional building blocks
(`nemo/collections/asr/parts/jasper.py`) and the NMT web service glue
(`examples/nlp/machine_translation/nmt_webapp/nmt_service.py`).

Tensors of shape `[B, C, T]` are embedded as `List (List (List ℚ))`
(batch, channel, time); exact rational arithmetic stands in for the
float arithmetic of the tensor runtime wherever the claims are about
the structure of the computation.  Sequence-length vectors (torch long
tensors) are `List ℤ`, and Python floor division `//` is `Int.fdiv`.
The squeeze-excitation and statistics-pooling layers need `Real.exp`
and `Real.sqrt`, so they are embedded over `ℝ`.
-/

namespace NeMoSpec

/-- Errors raised by the Python code that the embedding tracks. -/
inductive PyError where
  | valueError (msg : String)
  | indexError
  | attributeError
  deriving DecidableEq, Repr

/-! ## List helpers -/

/-- `l.getD` through a `map`, at an in-bounds index. -/
theorem getD_map {α β : Type} (f : α → β) (da : α) (db : β) :
    ∀ (l : List α) (i : ℕ), i < l.length → (l.map f).getD i db = f (l.getD i da)
  | _ :: _, 0, _ => rfl
  | _ :: l, i + 1, h => getD_map f da db l i (Nat.lt_of_succ_lt_succ h)

/-- `l.getD` through a `zipWith`, at an index in bounds for both lists. -/
theorem getD_zipWith {α β γ : Type} (f : α → β → γ) (da : α) (db : β) (dc : γ) :
    ∀ (as' : List α) (bs : List β) (i : ℕ), i < as'.length → i < bs.length →
      (List.zipWith f as' bs).getD i dc = f (as'.getD i da) (bs.getD i db)
  | _ :: _, _ :: _, 0, _, _ => rfl
  | _ :: as', _ :: bs, i + 1, ha, hb =>
      getD_zipWith f da db dc as' bs i (Nat.lt_of_succ_lt_succ ha) (Nat.lt_of_succ_lt_succ hb)

/-- `(List.range n).getD i d = i` at an in-bounds index. -/
theorem getD_range (d : ℕ) : ∀ (n i : ℕ), i < n → (List.range n).getD i d = i := by
  intro n
  induction n with
  | zero => intro i h; exact absurd h (Nat.not_lt_zero i)
  | succ n ih =>
    intro i h
    rw [List.range_succ_eq_map]
    cases i with
    | zero => rfl
    | succ i =>
      have hi : i < n := Nat.lt_of_succ_lt_succ h
      have hi' : i < (List.range n).length := by simpa using hi
      show ((List.range n).map Nat.succ).getD i d = i + 1
      rw [getD_map Nat.succ d d (List.range n) i hi']
      exact congrArg Nat.succ (ih i hi)

/-- An in-bounds `getD` is a member of the list. -/
theorem getD_mem {α : Type} : ∀ (l : List α) (i : ℕ) (d : α), i < l.length → l.getD i d ∈ l
  | a :: _, 0, _, _ => List.mem_cons_self a _
  | _ :: l, i + 1, d, h =>
      List.mem_cons_of_mem _ (getD_mem l i d (Nat.lt_of_succ_lt_succ h))

/-- Split a list into consecutive chunks of size `n` (fuel-driven helper). -/
def chunkListAux {α : Type} (n : ℕ) : ℕ → List α → List (List α)
  | 0, _ => []
  | _, [] => []
  | fuel + 1, l => l.take n :: chunkListAux n fuel (l.drop n)

/-- Split a list into consecutive chunks of size `n`; models a torch
`view` that groups a flattened dimension. -/
def chunkList {α : Type} (n : ℕ) (l : List α) : List (List α) :=
  if n = 0 then [] else chunkListAux n l.length l

/-! ## Rational tensors -/

/-- A `[B, C, T]` tensor. -/
abbrev Tensor3 := List (List (List ℚ))

/-- Elementwise sum of two `[B, C, T]` tensors (`out + res_out`). -/
def tAdd (a b : Tensor3) : Tensor3 :=
  List.zipWith (List.zipWith (List.zipWith (· + ·))) a b

/-- Elementwise max of two `[B, C, T]` tensors (`torch.max(out, res_out)`). -/
def tMax (a b : Tensor3) : Tensor3 :=
  List.zipWith (List.zipWith (List.zipWith max)) a b

/-! ## nn.Conv1d -/

/-- The parameters of a `torch.nn.Conv1d` as constructed by
`MaskedConv1d.__init__` / `JasperBlock._get_conv` (scalar size
parameters; torch normalises the int-or-singleton-list arguments of
this code to scalars).  `bias = []` models `bias=False`. -/
structure Conv1d where
  in_channels : ℕ
  out_channels : ℕ
  kernel_size : ℕ
  stride : ℕ
  padding : ℕ
  dilation : ℕ
  groups : ℕ
  weight : List (List (List ℚ))
  bias : List ℚ
  deriving DecidableEq, Repr

/-- Zero-pad a time row on both sides. -/
def padRow (p : ℕ) (row : List ℚ) : List ℚ :=
  List.replicate p 0 ++ row ++ List.replicate p 0

/-- Output time length of a 1-D convolution over `T` input steps. -/
def convOutLen (c : Conv1d) (T : ℕ) : ℕ :=
  ((((T : ℤ) + 2 * c.padding - c.dilation * ((c.kernel_size : ℤ) - 1) - 1).fdiv c.stride) + 1).toNat

/-- Dot product of one kernel row with a dilated window of a padded input row. -/
def dotWindow (wrow xrow : List ℚ) (start dilation : ℕ) : ℚ :=
  ((List.range wrow.length).map (fun j => wrow.getD j 0 * xrow.getD (start + j * dilation) 0)).sum

/-- The cross-correlation computed by `torch.nn.Conv1d` on a `[B, C, T]`
input, including zero padding, stride, dilation and channel groups. -/
def conv1dApply (c : Conv1d) (x : Tensor3) : Tensor3 :=
  x.map (fun mat =>
    let T := (mat.headD []).length
    let padded := mat.map (padRow c.padding)
    let ocpg := c.out_channels / c.groups
    let icpg := c.in_channels / c.groups
    (List.range c.out_channels).map (fun o =>
      let g := o / ocpg
      let wrows := c.weight.getD o []
      (List.range (convOutLen c T)).map (fun t =>
        c.bias.getD o 0 +
          ((List.range icpg).map (fun ci =>
            dotWindow (wrows.getD ci []) (padded.getD (g * icpg + ci) []) (t * c.stride) c.dilation)).sum)))

/-! ## MaskedConv1d -/

/-- `MaskedConv1d` after `__init__`: the wrapped `nn.Conv1d` (whose
channel/group parameters were replaced by `heads` when `heads != -1`),
the mask flag, the `heads` value and the remembered real output
channel count. -/
structure MaskedConv1d where
  conv : Conv1d
  use_mask : Bool
  heads : ℤ
  real_out_channels : ℕ
  deriving Repr

/-- `MaskedConv1d.get_seq_len`: recompute valid lengths after the
convolution; Python tensor floor division is `Int.fdiv`. -/
def MaskedConv1d.get_seq_len (m : MaskedConv1d) (lens : List ℤ) : List ℤ :=
  lens.map (fun l =>
    (l + 2 * (m.conv.padding : ℤ) - (m.conv.dilation : ℤ) * ((m.conv.kernel_size : ℤ) - 1) - 1).fdiv
      (m.conv.stride : ℤ) + 1)

/-- `x.masked_fill(mask, 0)` for the mask `arange(T) >= lens[b]`:
zero every timestep at or beyond the valid length of its batch element. -/
def maskFill (x : Tensor3) (lens : List ℤ) : Tensor3 :=
  List.zipWith (fun mat l =>
    mat.map (fun row => row.mapIdx (fun t v => if l ≤ (t : ℤ) then 0 else v))) x lens

/-- Lines 225-232 of `MaskedConv1d.forward`: the optional
`view(-1, heads, T)` reshape, the convolution, and the reshape back to
`(B, real_out_channels, -1)`. -/
def convPipeline (m : MaskedConv1d) (x : Tensor3) : Tensor3 :=
  if m.heads = -1 then conv1dApply m.conv x
  else
    let rows := x.flatten
    let out := conv1dApply m.conv (chunkList m.heads.toNat rows)
    chunkList m.real_out_channels out.flatten

/-- `MaskedConv1d.forward`: when masking is on, zero the padded
timesteps and recompute the lengths, then run the convolution. -/
def MaskedConv1d.forward (m : MaskedConv1d) (x : Tensor3) (lens : List ℤ) :
    Tensor3 × List ℤ :=
  if m.use_mask then (convPipeline m (maskFill x lens), m.get_seq_len lens)
  else (convPipeline m x, lens)

/-- `MaskedConv1d.forward` as a state-passing map: the Python method
assigns no attribute of `self`, so the module comes back unchanged. -/
def MaskedConv1d.forwardS (m : MaskedConv1d) (x : Tensor3) (lens : List ℤ) :
    (Tensor3 × List ℤ) × MaskedConv1d :=
  (m.forward x lens, m)

/-! ## GroupShuffle -/

/-- `GroupShuffle` module state after `__init__`. -/
structure GroupShuffle where
  groups : ℕ
  channels_per_group : ℕ
  deriving DecidableEq, Repr

/-- `GroupShuffle.__init__(groups, channels)`. -/
def mkGroupShuffle (groups channels : ℕ) : GroupShuffle :=
  { groups := groups, channels_per_group := channels / groups }

/-- Transpose a grid of channel rows; models `torch.transpose(x, 1, 2)`
on the `[B, groups, cpg, T]` view. -/
def gridTranspose (m : List (List (List ℚ))) : List (List (List ℚ)) :=
  (List.range (m.headD []).length).map (fun j => m.map (fun ch => ch.getD j []))

/-- `GroupShuffle.forward`: view the channels as `[groups, cpg]`,
transpose the two group dimensions, and flatten back. -/
def GroupShuffle.forward (g : GroupShuffle) (x : Tensor3) : Tensor3 :=
  x.map (fun mat => (gridTranspose (chunkList g.channels_per_group mat)).flatten)

/-- `GroupShuffle.forward` as a state-passing map (no attribute of
`self` is assigned). -/
def GroupShuffle.forwardS (g : GroupShuffle) (x : Tensor3) : Tensor3 × GroupShuffle :=
  (g.forward x, g)

/-! ## JasperBlock forward semantics

`self.mconv`, `self.res` and `self.mout` hold torch modules; the
forward pass distinguishes only `MaskedConv1d` layers (which also take
and return lengths, `isinstance(l, MaskedConv1d)`) from all other
layers (normalization, activation, dropout, squeeze-excitation,
shuffle), which are plain tensor-to-tensor maps.  A layer of the
embedded block is accordingly either a `MaskedConv1d` or an opaque
tensor transform. -/

/-- One module of `self.mconv` / one residual branch as seen by
`JasperBlock.forward`. -/
inductive JLayer where
  | masked (m : MaskedConv1d)
  | plain (f : Tensor3 → Tensor3)

/-- Whether a layer is a `MaskedConv1d` (`isinstance(l, MaskedConv1d)`). -/
def isMaskedLayer : JLayer → Bool
  | .masked _ => true
  | .plain _ => false

/-- The main-branch loop of `JasperBlock.forward` (lines 726-733):
masked convolutions update the lengths, other layers pass them through. -/
def runMconv : List JLayer → Tensor3 × List ℤ → Tensor3 × List ℤ
  | [], s => s
  | .masked m :: rest, s => runMconv rest (m.forward s.1 s.2)
  | .plain f :: rest, s => runMconv rest (f s.1, s.2)

/-- One residual branch (lines 739-743): masked convolutions are
evaluated at the original input lengths and their recomputed lengths
are discarded. -/
def runResLayer : List JLayer → Tensor3 → List ℤ → Tensor3
  | [], out, _ => out
  | .masked m :: rest, out, lens => runResLayer rest (m.forward out lens).1 lens
  | .plain f :: rest, out, lens => runResLayer rest (f out) lens

/-- The embedded `JasperBlock` module state, as used by `forward`. -/
structure JasperBlockSem where
  mconv : List JLayer
  res : Option (List (List JLayer))
  dense_residual : Bool
  residual_mode : String
  mout : Tensor3 → Tensor3

/-- Lines 736-756 of `JasperBlock.forward`: add (or max) every
residual branch, evaluated at the original input lengths, onto the
main-branch output. -/
def applyResiduals (b : JasperBlockSem) (xs : List Tensor3) (lens_orig : List ℤ)
    (out1 : Tensor3) : Tensor3 :=
  match b.res with
  | none => out1
  | some layers =>
    layers.enum.foldl (fun acc il =>
      let res_out := runResLayer il.2 (xs.getD il.1 []) lens_orig
      if b.residual_mode = "add" ∨ b.residual_mode = "stride_add" then tAdd acc res_out
      else tMax acc res_out) out1

/-- The output tensor produced by `JasperBlock.forward` (the value
`self.mout(out)` of line 759). -/
def blockOut (b : JasperBlockSem) (xs : List Tensor3) (lens_orig : List ℤ) : Tensor3 :=
  b.mout (applyResiduals b xs lens_orig (runMconv b.mconv (xs.getLastD [], lens_orig)).1)

/-- `JasperBlock.forward`: run the main branch on `xs[-1]`, add the
residual branches, and return either the dense list `xs + [out]` or
the singleton `[out]`, together with the propagated lengths. -/
def JasperBlockSem.forward (b : JasperBlockSem) (xs : List Tensor3) (lens_orig : List ℤ) :
    List Tensor3 × List ℤ :=
  let st := runMconv b.mconv (xs.getLastD [], lens_orig)
  let out := b.mout (applyResiduals b xs lens_orig st.1)
  (if b.res.isSome && b.dense_residual then xs ++ [out] else [out], st.2)

/-- The length transformation of the main branch alone: fold
`get_seq_len` of each masked convolution, in order. -/
def mconvLens : List JLayer → List ℤ → List ℤ
  | [], lens => lens
  | .masked m :: rest, lens => mconvLens rest (m.get_seq_len lens)
  | .plain _ :: rest, lens => mconvLens rest lens

/-! ## Layer construction (`JasperBlock.__init__` and helpers)

The constructor is embedded at the level of layer descriptors: the
structural parameters each torch module is built with.  Random weight
initialisation is external to this file.  `quantize=False` throughout
(the quantization path needs the optional `pytorch_quantization`
package and is dead code without it). -/

/-- Python `int(q)` on a float value modelled as a rational:
truncation toward zero. -/
def pyInt (q : ℚ) : ℤ := if q < 0 then ⌈q⌉ else ⌊q⌋

/-- `compute_new_kernel_size` (lines 63-68). -/
def compute_new_kernel_size (kernel_size : ℤ) (kernel_width : ℚ) : ℤ :=
  let new_kernel_size := max (pyInt ((kernel_size : ℚ) * kernel_width)) 1
  if new_kernel_size % 2 = 0 then new_kernel_size + 1 else new_kernel_size

/-- `get_same_padding` (lines 71-74); Python `//` is `Int.fdiv`. -/
def get_same_padding (kernel_size stride dilation : ℤ) : Except PyError ℤ :=
  if 1 < stride ∧ 1 < dilation then
    .error (.valueError "Only stride OR dilation may be greater than 1")
  else .ok ((dilation * (kernel_size - 1)).fdiv 2)

/-- Descriptor of one constructed convolution module: the parameters
handed to `nn.Conv1d` (after the `heads` replacement performed by
`MaskedConv1d.__init__` when `heads != -1`), whether it is wrapped in
a `MaskedConv1d`, and the remembered real output channels.
Size parameters are lists exactly as this code passes them (torch
accepts either an int `x` or the singleton list `[x]`; an int argument
is recorded as its singleton). -/
structure ConvSpec where
  in_channels : ℤ
  out_channels : ℤ
  kernel_size : List ℤ
  stride : List ℤ
  dilation : List ℤ
  padding : List ℤ
  groups : ℤ
  heads : ℤ
  bias : Bool
  use_mask : Bool
  real_out_channels : ℤ
  deriving DecidableEq, Repr

/-- Descriptor of one module appended by `_get_conv_bn_layer`,
`_get_act_dropout_layer` or the squeeze-excitation branch. -/
inductive LayerSpec where
  | conv (c : ConvSpec)
  | groupNorm (num_groups num_channels : ℤ)
  | batchNorm (num_features : ℤ)
  | groupShuffle (groups channels : ℤ)
  | activation
  | dropout (p : ℚ)
  | squeezeExcite (channels reduction context_window : ℤ)
  deriving DecidableEq, Repr

/-- The convolutions among a layer list. -/
def convsOf (ls : List LayerSpec) : List ConvSpec :=
  ls.filterMap (fun l => match l with | .conv c => some c | _ => none)

/-- `JasperBlock._get_conv` combined with `MaskedConv1d.__init__`:
with `conv_mask` a `MaskedConv1d` is built (checking the `heads`
precondition and substituting `heads` for the channel/group counts),
otherwise a plain `nn.Conv1d`. -/
def getConv (conv_mask : Bool) (in_channels out_channels : ℤ)
    (kernel_size stride dilation padding : List ℤ) (bias : Bool) (groups heads : ℤ) :
    Except PyError ConvSpec :=
  if conv_mask then
    if ¬(heads = -1 ∨ groups = in_channels) then
      .error (.valueError "Only use heads for depthwise convolutions")
    else if heads = -1 then
      .ok ⟨in_channels, out_channels, kernel_size, stride, dilation, padding, groups, -1,
        bias, true, out_channels⟩
    else
      .ok ⟨heads, heads, kernel_size, stride, dilation, padding, heads, heads,
        bias, true, out_channels⟩
  else
    .ok ⟨in_channels, out_channels, kernel_size, stride, dilation, padding, groups, -1,
      bias, false, out_channels⟩

/-- The normalization module appended by `_get_conv_bn_layer`
(lines 680-691): `GroupNorm` for group/instance/layer modes,
`BatchNorm1d` for batch mode, `ValueError` otherwise. -/
def normLayer (normalization : String) (ng out_channels : ℤ) : Except PyError LayerSpec :=
  if normalization = "group" then .ok (.groupNorm ng out_channels)
  else if normalization = "instance" then .ok (.groupNorm out_channels out_channels)
  else if normalization = "layer" then .ok (.groupNorm 1 out_channels)
  else if normalization = "batch" then .ok (.batchNorm out_channels)
  else .error (.valueError "Normalization method does not match one of batch, layer, group, instance")

/-- `JasperBlock._get_conv_bn_layer` (lines 620-695): one convolution
(or a depthwise plus a pointwise convolution when `separable`), a
normalization layer, and a `GroupShuffle` when `groups > 1`. -/
def getConvBnLayer (conv_mask : Bool) (in_channels out_channels : ℤ)
    (kernel_size stride dilation padding : List ℤ) (bias : Bool)
    (groups heads : ℤ) (separable : Bool) (normalization : String) (norm_groups : ℤ) :
    Except PyError (List LayerSpec) :=
  let ng := if norm_groups = -1 then out_channels else norm_groups
  let convPart : Except PyError (List LayerSpec) :=
    if separable then
      match getConv conv_mask in_channels in_channels kernel_size stride dilation padding
              bias in_channels heads,
            getConv conv_mask in_channels out_channels [1] [1] [1] [0] bias groups (-1) with
      | .ok dw, .ok pw => .ok [LayerSpec.conv dw, LayerSpec.conv pw]
      | .error e, _ => .error e
      | .ok _, .error e => .error e
    else
      match getConv conv_mask in_channels out_channels kernel_size stride dilation padding
              bias groups (-1) with
      | .ok c => .ok [LayerSpec.conv c]
      | .error e => .error e
  match convPart with
  | .error e => .error e
  | .ok convs =>
    match normLayer normalization ng out_channels with
    | .error e => .error e
    | .ok nl =>
      .ok ((convs ++ [nl]) ++
        (if 1 < groups then [LayerSpec.groupShuffle groups out_channels] else []))

/-- The arguments of `JasperBlock.__init__` (defaults as in the
source; `kernel_size`, `stride` and `dilation` as the lists every
config passes; `se_context_window=None` is modelled by its effective
global-context value `-1`). -/
structure BlockConfig where
  inplanes : ℤ
  planes : ℤ
  repeatCount : ℕ := 3
  kernel_size : List ℤ := [11]
  kernel_size_factor : ℚ := 1
  stride : List ℤ := [1]
  dilation : List ℤ := [1]
  padding : String := "same"
  dropout : ℚ := 1 / 5
  residual : Bool := true
  groups : ℤ := 1
  separable : Bool := false
  heads : ℤ := -1
  normalization : String := "batch"
  norm_groups : ℤ := 1
  residual_mode : String := "add"
  residual_panes : List ℤ := []
  conv_mask : Bool := false
  se : Bool := false
  se_reduction : ℤ := 16
  se_context_window : ℤ := -1
  stride_last : Bool := false
  deriving DecidableEq, Repr

/-- The structural result of `JasperBlock.__init__`. -/
structure BlockSpec where
  mconv : List LayerSpec
  res : Option (List (List LayerSpec))
  dense_residual : Bool
  residual_mode : String
  conv_mask : Bool
  separable : Bool
  deriving DecidableEq, Repr

/-- First element of a Python list subscript `l[0]`. -/
def headE {α : Type} : List α → Except PyError α
  | [] => .error .indexError
  | a :: _ => .ok a

/-- Sequential evaluation of a fallible map over a list, stopping at
the first error (the Python `for` loop). -/
def exceptMapM {α β : Type} (f : α → Except PyError β) : List α → Except PyError (List β)
  | [] => .ok []
  | a :: rest =>
    match f a, exceptMapM f rest with
    | .ok b, .ok bs => .ok (b :: bs)
    | .error e, _ => .error e
    | .ok _, .error e => .error e

/-- The `for _ in range(repeat - 1)` loop of `__init__`
(lines 461-487): each iteration appends a conv-norm group and an
activation/dropout pair, and switches `inplanes_loop` to `planes`. -/
def mkMainLoop (cfg : BlockConfig) (ks : List ℤ) (padding_val : ℤ) :
    ℕ → ℤ → Except PyError (List LayerSpec)
  | 0, _ => .ok []
  | n + 1, inplanes_loop =>
    let stride_val := if cfg.stride_last then [1] else cfg.stride
    match getConvBnLayer cfg.conv_mask inplanes_loop cfg.planes ks stride_val cfg.dilation
            [padding_val] false cfg.groups cfg.heads cfg.separable cfg.normalization
            cfg.norm_groups with
    | .error e => .error e
    | .ok cb =>
      match mkMainLoop cfg ks padding_val n cfg.planes with
      | .error e => .error e
      | .ok rest => .ok (cb ++ [LayerSpec.activation, LayerSpec.dropout cfg.dropout] ++ rest)

/-- `self.mconv` (lines 459-518): the repeated sub-blocks, the final
conv-norm group built with the block stride, and the optional
squeeze-excitation layer. -/
def mkMconv (cfg : BlockConfig) (ks : List ℤ) (padding_val : ℤ) :
    Except PyError (List LayerSpec) :=
  match mkMainLoop cfg ks padding_val (cfg.repeatCount - 1) cfg.inplanes with
  | .error e => .error e
  | .ok loopLayers =>
    let inplanes_loop := if cfg.repeatCount - 1 = 0 then cfg.inplanes else cfg.planes
    match getConvBnLayer cfg.conv_mask inplanes_loop cfg.planes ks cfg.stride cfg.dilation
            [padding_val] false cfg.groups cfg.heads cfg.separable cfg.normalization
            cfg.norm_groups with
    | .error e => .error e
    | .ok finalLayers =>
      .ok (loopLayers ++ finalLayers ++
        (if cfg.se then
          [LayerSpec.squeezeExcite cfg.planes cfg.se_reduction cfg.se_context_window]
         else []))

/-- `self.res` and `self.dense_residual` (lines 520-558): pointwise
residual convolutions, built with the block stride under
`residual_mode == 'stride_add'` and with stride 1 otherwise. -/
def mkResiduals (cfg : BlockConfig) :
    Except PyError (Option (List (List LayerSpec)) × Bool) :=
  if cfg.residual then
    let stride_val := if cfg.residual_mode = "stride_add" then cfg.stride else [1]
    let dense := if cfg.residual_panes.isEmpty then false else cfg.residual
    let res_panes := if cfg.residual_panes.isEmpty then [cfg.inplanes] else cfg.residual_panes
    match exceptMapM (fun ip =>
        getConvBnLayer cfg.conv_mask ip cfg.planes [1] stride_val [1] [0] false 1 (-1) false
          cfg.normalization cfg.norm_groups) res_panes with
    | .error e => .error e
    | .ok rl => .ok (some rl, dense)
  else .ok (none, cfg.residual)

/-- `JasperBlock.__init__` (lines 412-560): validate the padding mode,
rescale the kernel sizes, compute the symmetric padding, then build
the main branch and the residual branches. -/
def mkJasperBlock (cfg : BlockConfig) : Except PyError BlockSpec :=
  if cfg.padding ≠ "same" then
    .error (.valueError "currently only same padding is supported")
  else
    let ks := cfg.kernel_size.map (fun k => compute_new_kernel_size k cfg.kernel_size_factor)
    match headE ks with
    | .error e => .error e
    | .ok k0 =>
      match headE cfg.stride with
      | .error e => .error e
      | .ok s0 =>
        match headE cfg.dilation with
        | .error e => .error e
        | .ok d0 =>
          match get_same_padding k0 s0 d0 with
          | .error e => .error e
          | .ok padding_val =>
            match mkMconv cfg ks padding_val with
            | .error e => .error e
            | .ok conv =>
              match mkResiduals cfg with
              | .error e => .error e
              | .ok rd =>
                .ok { mconv := conv, res := rd.1, dense_residual := rd.2,
                      residual_mode := cfg.residual_mode, conv_mask := cfg.conv_mask,
                      separable := cfg.separable }

/-! ## Concrete instances used to instantiate the claims -/

/-- A masked convolution used to instantiate the claims: kernel 3,
stride 2, padding 1, all-ones weights. -/
def mcMaskedEx : MaskedConv1d :=
  { conv :=
      { in_channels := 1, out_channels := 1, kernel_size := 3, stride := 2, padding := 1,
        dilation := 1, groups := 1, weight := [[[1, 1, 1]]], bias := [] },
    use_mask := true, heads := -1, real_out_channels := 1 }

/-- The same convolution with masking disabled. -/
def mcPlainEx : MaskedConv1d :=
  { mcMaskedEx with use_mask := false }

/-- An example `[1, 1, 5]` input. -/
def xEx : Tensor3 := [[[1, 2, 3, 4, 5]]]

/-- Example length vector. -/
def lensEx : List ℤ := [3]

/-- An example block: one masked convolution followed by a plain layer,
no residual branch. -/
def jbEx : JasperBlockSem :=
  { mconv := [JLayer.masked mcMaskedEx, JLayer.plain id],
    res := none, dense_residual := false, residual_mode := "add", mout := id }

/-- An example block configuration with a dense strided residual. -/
def cfgResEx : BlockConfig :=
  { inplanes := 4, planes := 4, repeatCount := 1, kernel_size := [3], conv_mask := true,
    residual := true, residual_panes := [4], residual_mode := "stride_add" }

/-- The block the constructor builds from `cfgResEx`. -/
def jbSpecEx : BlockSpec :=
  match mkJasperBlock cfgResEx with
  | .ok b => b
  | .error _ => ⟨[], none, false, "", false, false⟩

/-- A configuration with both stride and dilation greater than 1. -/
def cfgBadEx : BlockConfig :=
  { inplanes := 4, planes := 4, kernel_size := [3], stride := [2], dilation := [2] }

/-- A separable conv-norm layer list built at concrete parameters. -/
def convBnSepEx : List LayerSpec :=
  match getConvBnLayer true 4 8 [3] [2] [1] [1] false 1 (-1) true "batch" 1 with
  | .ok ls => ls
  | .error _ => []

/-- A non-separable conv-norm layer list built at concrete parameters. -/
def convBnPlainEx : List LayerSpec :=
  match getConvBnLayer true 4 8 [3] [2] [1] [1] false 1 (-1) false "batch" 1 with
  | .ok ls => ls
  | .error _ => []

/-! ## Real-valued sub-layers

`StatsPoolLayer` needs `sqrt` and `SqueezeExcite` needs the logistic
sigmoid, so these two modules are embedded over `ℝ`. -/

/-- A `[B, C, T]` tensor over `ℝ`. -/
abbrev T3R := List (List (List ℝ))

/-- Mean over a time row (`x.mean(dim=-1)` per channel). -/
noncomputable def listMean (l : List ℝ) : ℝ := l.sum / l.length

/-- Unbiased standard deviation over a time row (`x.std(dim=-1)`). -/
noncomputable def listStd (l : List ℝ) : ℝ :=
  Real.sqrt ((l.map (fun v => (v - listMean l) ^ 2)).sum / ((l.length : ℝ) - 1))

/-- `StatsPoolLayer` module state after `__init__`. -/
structure StatsPoolLayer where
  pool_mode : String
  feat_in : ℤ

/-- `StatsPoolLayer.__init__(feat_in, pool_mode)`. -/
def mkStatsPoolLayer (feat_in : ℤ) (pool_mode : String) : StatsPoolLayer :=
  { pool_mode := pool_mode,
    feat_in := if pool_mode = "xvector" then feat_in + feat_in else feat_in }

/-- `StatsPoolLayer.forward`: per-channel time mean, concatenated with
the per-channel time standard deviation in xvector mode. -/
noncomputable def StatsPoolLayer.forward (p : StatsPoolLayer) (x : T3R) :
    List (List ℝ) :=
  let mean := x.map (fun mat => mat.map listMean)
  if p.pool_mode = "xvector" then
    List.zipWith (fun mr mat => mr ++ mat.map listStd) mean x
  else mean

/-- `StatsPoolLayer.forward` as a state-passing map (no attribute of
`self` is assigned). -/
noncomputable def StatsPoolLayer.forwardS (p : StatsPoolLayer) (x : T3R) :
    List (List ℝ) × StatsPoolLayer :=
  (p.forward x, p)

/-! ## SqueezeExcite -/

/-- The logistic sigmoid `torch.sigmoid`. -/
noncomputable def sigmoid (z : ℝ) : ℝ := 1 / (1 + Real.exp (-z))

/-- `SqueezeExcite` module state: the context window, the two linear
layers of `self.fc` (each a list of rows, `bias=False`) and the
intermediate activation.  The embedding fixes `interpolation_mode` to
its default `nearest` (the other modes are external torch kernels). -/
structure SqueezeExcite where
  context_window : ℤ
  fcW1 : List (List ℝ)
  fcW2 : List (List ℝ)
  act : ℝ → ℝ

/-- A linear layer with `bias=False` applied to one vector. -/
noncomputable def matVec (W : List (List ℝ)) (v : List ℝ) : List ℝ :=
  W.map (fun wrow => (List.zipWith (· * ·) wrow v).sum)

/-- `self.fc`: linear, activation, linear. -/
noncomputable def fcApply (se : SqueezeExcite) (v : List ℝ) : List ℝ :=
  matVec se.fcW2 ((matVec se.fcW1 v).map se.act)

/-- `torch.transpose(y, 1, -1)` on one `[C, T]` matrix (rectangular in
every use). -/
def transposeLLR (m : List (List ℝ)) : List (List ℝ) :=
  (List.range (m.headD []).length).map (fun t => m.map (fun row => row.getD t 0))

/-- `nn.AvgPool1d(cw, stride=1)` on one time row. -/
noncomputable def avgWindow (cw : ℕ) (row : List ℝ) : List ℝ :=
  (List.range (row.length + 1 - cw)).map
    (fun t => ((List.range cw).map (fun j => row.getD (t + j) 0)).sum / cw)

/-- `self.pool` on one `[C, T]` matrix: global average
(`nn.AdaptiveAvgPool1d(1)`) when the context window is not positive,
stride-1 window average otherwise. -/
noncomputable def poolStage (se : SqueezeExcite) (mat : List (List ℝ)) :
    List (List ℝ) :=
  if se.context_window ≤ 0 then mat.map (fun row => [listMean row])
  else mat.map (avgWindow se.context_window.toNat)

/-- `F.interpolate(y, size=T, mode='nearest')` on one time row. -/
def interpNearest (T : ℕ) (row : List ℝ) : List ℝ :=
  (List.range T).map (fun t => row.getD (t * row.length / T) 0)

/-- The gate of `SqueezeExcite.forward` on one batch element: pool,
transpose, fc, transpose back, interpolate when the context window is
positive, sigmoid. -/
noncomputable def perBatchGate (se : SqueezeExcite) (T : ℕ) (mat : List (List ℝ)) :
    List (List ℝ) :=
  let pooled := poolStage se mat
  let fced := (transposeLLR pooled).map (fcApply se)
  let back := transposeLLR fced
  let interp := if 0 < se.context_window then back.map (interpNearest T) else back
  interp.map (List.map sigmoid)

/-- The full gate `sigmoid(fc(pool(x)))` of `SqueezeExcite.forward`
(`timesteps = x.size(2)`). -/
noncomputable def seGate (se : SqueezeExcite) (x : T3R) : T3R :=
  x.map (perBatchGate se (((x.headD []).headD []).length))

/-- `x * y` on one time row, broadcasting a singleton time dimension. -/
noncomputable def mulRowR (xr yr : List ℝ) : List ℝ :=
  if yr.length = 1 then xr.map (fun v => v * yr.getD 0 0) else List.zipWith (· * ·) xr yr

/-- `x * y` on `[B, C, T]` tensors, broadcasting over time. -/
noncomputable def broadcastMul (x y : T3R) : T3R :=
  List.zipWith (fun xm ym => List.zipWith mulRowR xm ym) x y

/-- `SqueezeExcite.forward`: rescale the input by the gate. -/
noncomputable def SqueezeExcite.forward (se : SqueezeExcite) (x : T3R) : T3R :=
  broadcastMul x (seGate se x)

/-- Entry `x[b, c, t]` of a real tensor (0 outside the shape). -/
def entry3 (x : T3R) (b c t : ℕ) : ℝ := ((x.getD b []).getD c []).getD t 0

/-- An example squeeze-excitation module with global context. -/
noncomputable def seEx : SqueezeExcite :=
  { context_window := -1, fcW1 := [[1]], fcW2 := [[1]], act := fun v => v }

/-- An example `[1, 1, 2]` real input. -/
noncomputable def xRealEx : T3R := [[[1, 2]]]

/-! ## NMT web service (`nmt_service.py`)

`MODELS_DICT` is a Python dict from language-pair strings to loaded
models, embedded as an association list.  Restoring a model from a
checkpoint path (`MTEncDecModel.restore_from`) and the translation
call itself are external library operations, passed in as functions. -/

/-- A parsed JSON document as the service startup consumes it: `null`,
an object mapping language pairs to model paths, or any other JSON
value (on which the `.items()` call raises `AttributeError`). -/
inductive PyJson where
  | null
  | obj (kvs : List (String × String))
  | other
  deriving DecidableEq, Repr

/-- Python `k in d` on a dict. -/
def containsKey {M : Type} (k : String) : List (String × M) → Bool
  | [] => false
  | kv :: rest => if kv.1 = k then true else containsKey k rest

/-- Python `d[k]` on a dict (`none` when the key is absent). -/
def lookupKey {M : Type} (k : String) : List (String × M) → Option M
  | [] => none
  | kv :: rest => if kv.1 = k then some kv.2 else lookupKey k rest

/-- Python dict assignment `d[k] = v`: overwrite the existing binding,
or append a new one. -/
def dictUpdate {M : Type} (d : List (String × M)) (k : String) (v : M) :
    List (String × M) :=
  if containsKey k d then d.map (fun kv => if kv.1 = k then (k, v) else kv)
  else d ++ [(k, v)]

/-- The `initialize` function of `nmt_service.py` (lines 29-54): given
the parsed JSON config and the current `MODELS_DICT`, raise
`ValueError` when the document is `null`, restore a model per
key-value pair of the parsed object otherwise (a non-object non-null
document fails at `.items()` with `AttributeError`). -/
def initNmtService {M : Type} (restore : String → M) (doc : PyJson)
    (models : List (String × M)) : Except PyError (List (String × M)) :=
  match doc with
  | .null => .error (.valueError "Did not find the config.json or it was empty")
  | .obj kvs => .ok (kvs.foldl (fun d kv => dictUpdate d kv.1 (restore kv.2)) models)
  | .other => .error .attributeError

/-- `get_translation` (lines 57-70): translate and JSON-encode when
the language pair is a key of `MODELS_DICT`, otherwise log an error
and fall off the function (returning `None`). -/
def get_translation {M : Type} (translate : M → String → String)
    (dumps : String → String) (models : List (String × M)) (langpair src : String) :
    Option String :=
  match lookupKey langpair models with
  | some m => some (dumps (translate m src))
  | none => none

end NeMoSpec

namespace NeMoSpec

/-- Claim C1: for every input tensor and length vector, `MaskedConv1d.forward`
with `use_mask = True` first zeroes every timestep `t >= lens[b]`, then applies
the convolution, and returns the recomputed lengths
`(lens + 2*padding - dilation*(kernel_size - 1) - 1) // stride + 1`; with
`use_mask = False` it applies the convolution and returns `lens` unchanged. -/
theorem maskedConv1d_forward_spec (m : MaskedConv1d) (x : Tensor3) (lens : List ℤ) :
    (m.use_mask = true →
      m.forward x lens =
        (convPipeline m (maskFill x lens),
         lens.map (fun l =>
           (l + 2 * (m.conv.padding : ℤ) - (m.conv.dilation : ℤ) * ((m.conv.kernel_size : ℤ) - 1)
              - 1).fdiv (m.conv.stride : ℤ) + 1)))
    ∧ (m.use_mask = false → m.forward x lens = (convPipeline m x, lens)) := by
  constructor
  · intro h
    simp [MaskedConv1d.forward, MaskedConv1d.get_seq_len, h]
  · intro h
    simp [MaskedConv1d.forward, h]

theorem maskedConv1d_forward_spec_inst :
    MaskedConv1d.forward mcMaskedEx xEx lensEx =
      (convPipeline mcMaskedEx (maskFill xEx lensEx),
       lensEx.map (fun l =>
         (l + 2 * (mcMaskedEx.conv.padding : ℤ)
            - (mcMaskedEx.conv.dilation : ℤ) * ((mcMaskedEx.conv.kernel_size : ℤ) - 1)
            - 1).fdiv (mcMaskedEx.conv.stride : ℤ) + 1))
    ∧ MaskedConv1d.forward mcPlainEx xEx lensEx = (convPipeline mcPlainEx xEx, lensEx) :=
  ⟨(maskedConv1d_forward_spec mcMaskedEx xEx lensEx).1 rfl,
   (maskedConv1d_forward_spec mcPlainEx xEx lensEx).2 rfl⟩

/-- The lengths component of the main-branch loop folds `get_seq_len`
over the masked convolutions (all of which have `use_mask` on). -/
theorem runMconv_snd :
    ∀ (layers : List JLayer) (out : Tensor3) (lens : List ℤ),
      (∀ m, JLayer.masked m ∈ layers → m.use_mask = true) →
      (runMconv layers (out, lens)).2 = mconvLens layers lens := by
  intro layers
  induction layers with
  | nil => intro out lens _; rfl
  | cons l rest ih =>
    intro out lens h
    cases l with
    | masked m =>
      have hm : m.use_mask = true := h m (List.mem_cons_self _ _)
      have hrest : ∀ m, JLayer.masked m ∈ rest → m.use_mask = true :=
        fun m hmem => h m (List.mem_cons_of_mem _ hmem)
      show (runMconv rest (m.forward out lens)).2 = mconvLens rest (m.get_seq_len lens)
      rw [show m.forward out lens = (convPipeline m (maskFill out lens), m.get_seq_len lens) by
        simp [MaskedConv1d.forward, hm]]
      exact ih _ _ hrest
    | plain f =>
      exact ih _ _ (fun m hmem => h m (List.mem_cons_of_mem _ hmem))

/-- A main branch with no masked convolution leaves the lengths alone. -/
theorem mconvLens_no_masked :
    ∀ (layers : List JLayer) (lens : List ℤ),
      (∀ l ∈ layers, isMaskedLayer l = false) → mconvLens layers lens = lens := by
  intro layers
  induction layers with
  | nil => intro lens _; rfl
  | cons l rest ih =>
    intro lens h
    cases l with
    | masked m => exact absurd (h _ (List.mem_cons_self _ _)) (by simp [isMaskedLayer])
    | plain f => exact ih lens (fun l hmem => h l (List.mem_cons_of_mem _ hmem))

/-- Claim C2: the lengths returned by `JasperBlock.forward` are the
input lengths transformed, in order, by `get_seq_len` of each
`MaskedConv1d` of the main branch `self.mconv` (residual branches are
evaluated at the original lengths and never touch the returned
lengths — the statement holds for every residual branch list), and
when the block contains no `MaskedConv1d` the lengths come back
unchanged. -/
theorem jasperBlock_forward_lens_spec (b : JasperBlockSem) (xs : List Tensor3)
    (lens : List ℤ)
    (hmask : ∀ m, JLayer.masked m ∈ b.mconv → m.use_mask = true) :
    (b.forward xs lens).2 = mconvLens b.mconv lens
    ∧ ((∀ l ∈ b.mconv, isMaskedLayer l = false) → (b.forward xs lens).2 = lens) := by
  have hsnd : (b.forward xs lens).2 = (runMconv b.mconv (xs.getLastD [], lens)).2 := rfl
  constructor
  · rw [hsnd]
    exact runMconv_snd b.mconv _ lens hmask
  · intro hnone
    rw [hsnd, runMconv_snd b.mconv _ lens hmask]
    exact mconvLens_no_masked b.mconv lens hnone

theorem jasperBlock_forward_lens_spec_inst :
    (JasperBlockSem.forward jbEx [xEx] lensEx).2 = mconvLens jbEx.mconv lensEx :=
  (jasperBlock_forward_lens_spec jbEx [xEx] lensEx (by
    intro m hm
    simp only [jbEx, List.mem_cons, List.not_mem_nil, or_false] at hm
    cases hm with
    | inl h => cases h; rfl
    | inr h => cases h)).1

/-- Claim C9: `compute_new_kernel_size` always returns an odd integer
that is at least 1 (computing `max(int(kernel_size * kernel_width), 1)`
and adding 1 when that value is even), so every kernel size a
`JasperBlock` uses for same padding is odd. -/
theorem compute_new_kernel_size_spec :
    (∀ (kernel_size : ℤ) (kernel_width : ℚ),
      1 ≤ compute_new_kernel_size kernel_size kernel_width
      ∧ compute_new_kernel_size kernel_size kernel_width % 2 = 1)
    ∧ (∀ (cfg : BlockConfig) (k : ℤ),
        k ∈ cfg.kernel_size.map (fun ks => compute_new_kernel_size ks cfg.kernel_size_factor) →
        k % 2 = 1) := by
  have main : ∀ (ks : ℤ) (kw : ℚ),
      1 ≤ compute_new_kernel_size ks kw ∧ compute_new_kernel_size ks kw % 2 = 1 := by
    intro ks kw
    have hdef : compute_new_kernel_size ks kw =
        if (max (pyInt ((ks : ℚ) * kw)) 1) % 2 = 0 then max (pyInt ((ks : ℚ) * kw)) 1 + 1
        else max (pyInt ((ks : ℚ) * kw)) 1 := rfl
    rw [hdef]
    set n := max (pyInt ((ks : ℚ) * kw)) 1 with hn
    have h1 : (1 : ℤ) ≤ n := le_max_right _ _
    by_cases he : n % 2 = 0
    · rw [if_pos he]
      omega
    · rw [if_neg he]
      omega
  refine ⟨main, ?_⟩
  intro cfg k hk
  rw [List.mem_map] at hk
  obtain ⟨ks, _, rfl⟩ := hk
  exact (main ks cfg.kernel_size_factor).2

theorem compute_new_kernel_size_spec_inst :
    (11 : ℤ) % 2 = 1 :=
  compute_new_kernel_size_spec.2 { inplanes := 1, planes := 1 } 11 (by
    refine List.mem_map.mpr ⟨11, List.mem_singleton.mpr rfl, ?_⟩
    norm_num [compute_new_kernel_size, pyInt])

/-- Claim C8: `get_same_padding` raises `ValueError` exactly when both
stride and dilation exceed 1, otherwise returns
`(dilation * (kernel_size - 1)) // 2`; consequently a `JasperBlock`
whose `stride[0] > 1` and `dilation[0] > 1` fails with that
`ValueError` (the constructor returns the error before building any
layer). -/
theorem get_same_padding_spec :
    (∀ k s d : ℤ,
      (∃ msg, get_same_padding k s d = .error (.valueError msg)) ↔ (1 < s ∧ 1 < d))
    ∧ (∀ k s d : ℤ, ¬(1 < s ∧ 1 < d) →
        get_same_padding k s d = .ok ((d * (k - 1)).fdiv 2))
    ∧ (∀ (cfg : BlockConfig), cfg.padding = "same" →
        ∀ (k : ℤ) (ks : List ℤ) (s : ℤ) (ss : List ℤ) (d : ℤ) (ds : List ℤ),
          cfg.kernel_size = k :: ks → cfg.stride = s :: ss → cfg.dilation = d :: ds →
          1 < s → 1 < d →
          mkJasperBlock cfg =
            .error (.valueError "Only stride OR dilation may be greater than 1")) := by
  refine ⟨?_, ?_, ?_⟩
  · intro k s d
    constructor
    · rintro ⟨msg, hmsg⟩
      by_cases h : 1 < s ∧ 1 < d
      · exact h
      · simp [get_same_padding, h] at hmsg
    · intro h
      exact ⟨"Only stride OR dilation may be greater than 1",
        by simp [get_same_padding, h]⟩
  · intro k s d h
    simp [get_same_padding, h]
  · intro cfg hpad k ks s ss d ds hk hs hd hs1 hd1
    have hcond : (1 < s ∧ 1 < d) := ⟨hs1, hd1⟩
    simp [mkJasperBlock, hpad, hk, hs, hd, headE, get_same_padding, hcond]

theorem get_same_padding_spec_inst :
    get_same_padding 3 1 2 = .ok (((2 : ℤ) * (3 - 1)).fdiv 2)
    ∧ mkJasperBlock cfgBadEx =
        .error (.valueError "Only stride OR dilation may be greater than 1") :=
  ⟨get_same_padding_spec.2.1 3 1 2 (by decide),
   get_same_padding_spec.2.2 cfgBadEx rfl 3 [] 2 [] 2 [] rfl rfl rfl (by decide) (by decide)⟩

/-- `_get_conv` with the default `heads = -1` builds exactly the
requested convolution (masked iff `conv_mask`). -/
theorem getConv_heads_none (cm : Bool) (i o : ℤ) (k s d p : List ℤ) (bias : Bool) (g : ℤ) :
    getConv cm i o k s d p bias g (-1) =
      .ok ⟨i, o, k, s, d, p, g, -1, bias, cm, o⟩ := by
  cases cm <;> simp [getConv]

/-- `convsOf` distributes over append. -/
theorem convsOf_append (a b : List LayerSpec) :
    convsOf (a ++ b) = convsOf a ++ convsOf b := by
  simp [convsOf]

/-- The normalization layer is never a convolution. -/
theorem normLayer_no_conv (norm : String) (ng o : ℤ) (nl : LayerSpec)
    (h : normLayer norm ng o = .ok nl) : convsOf [nl] = [] := by
  unfold normLayer at h
  split at h
  · cases h; rfl
  · split at h
    · cases h; rfl
    · split at h
      · cases h; rfl
      · split at h
        · cases h; rfl
        · cases h

/-- The convolutions of a non-separable conv-norm layer group: exactly
one convolution, with the requested parameters. -/
theorem convsOf_convBn_plain (cm : Bool) (i o : ℤ) (k s d p : List ℤ) (bias : Bool)
    (g h : ℤ) (norm : String) (ng : ℤ) (ls : List LayerSpec)
    (hok : getConvBnLayer cm i o k s d p bias g h false norm ng = .ok ls) :
    convsOf ls = [⟨i, o, k, s, d, p, g, -1, bias, cm, o⟩] := by
  unfold getConvBnLayer at hok
  simp only [Bool.false_eq_true, if_false] at hok
  rw [getConv_heads_none] at hok
  cases hn : normLayer norm (if ng = -1 then o else ng) o with
  | error e =>
    rw [hn] at hok
    exact Except.noConfusion hok
  | ok nl =>
    rw [hn] at hok
    have hls := Except.ok.inj hok
    subst hls
    rw [convsOf_append, convsOf_append, normLayer_no_conv norm _ o nl hn]
    by_cases hg : 1 < g <;> simp [hg, convsOf]

/-- The convolutions of a separable conv-norm layer group (default
heads): the depthwise and the pointwise convolution. -/
theorem convsOf_convBn_sep (cm : Bool) (i o : ℤ) (k s d p : List ℤ) (bias : Bool)
    (g : ℤ) (norm : String) (ng : ℤ) (ls : List LayerSpec)
    (hok : getConvBnLayer cm i o k s d p bias g (-1) true norm ng = .ok ls) :
    convsOf ls =
      [⟨i, i, k, s, d, p, i, -1, bias, cm, i⟩,
       ⟨i, o, [1], [1], [1], [0], g, -1, bias, cm, o⟩] := by
  unfold getConvBnLayer at hok
  simp only [if_true] at hok
  rw [getConv_heads_none, getConv_heads_none] at hok
  cases hn : normLayer norm (if ng = -1 then o else ng) o with
  | error e =>
    rw [hn] at hok
    exact Except.noConfusion hok
  | ok nl =>
    rw [hn] at hok
    have hls := Except.ok.inj hok
    subst hls
    rw [convsOf_append, convsOf_append, normLayer_no_conv norm _ o nl hn]
    by_cases hg : 1 < g <;> simp [hg, convsOf]

/-- Claim C4: with `separable=True` a conv-norm sub-layer holds exactly
two convolutions — a depthwise convolution with `groups = in_channels`
and the block kernel size, stride, dilation and padding, then a
pointwise `1x1` convolution with stride 1, dilation 1, padding 0
mixing `in_channels` to `out_channels`; with `separable=False` a
single convolution with the block parameters. -/
theorem conv_bn_separable_spec :
    (∀ (cm : Bool) (i o : ℤ) (k s d p : List ℤ) (bias : Bool) (g ng : ℤ)
       (norm : String) (ls : List LayerSpec),
       getConvBnLayer cm i o k s d p bias g (-1) true norm ng = .ok ls →
         convsOf ls =
           [⟨i, i, k, s, d, p, i, -1, bias, cm, i⟩,
            ⟨i, o, [1], [1], [1], [0], g, -1, bias, cm, o⟩])
    ∧ (∀ (cm : Bool) (i o : ℤ) (k s d p : List ℤ) (bias : Bool) (g ng : ℤ)
       (norm : String) (ls : List LayerSpec),
       getConvBnLayer cm i o k s d p bias g (-1) false norm ng = .ok ls →
         convsOf ls = [⟨i, o, k, s, d, p, g, -1, bias, cm, o⟩]) :=
  ⟨fun cm i o k s d p bias g ng norm ls hok =>
     convsOf_convBn_sep cm i o k s d p bias g norm ng ls hok,
   fun cm i o k s d p bias g ng norm ls hok =>
     convsOf_convBn_plain cm i o k s d p bias g (-1) norm ng ls hok⟩

theorem conv_bn_separable_spec_inst :
    convsOf convBnSepEx =
      [⟨4, 4, [3], [2], [1], [1], 4, -1, false, true, 4⟩,
       ⟨4, 8, [1], [1], [1], [0], 1, -1, false, true, 8⟩]
    ∧ convsOf convBnPlainEx = [⟨4, 8, [3], [2], [1], [1], 1, -1, false, true, 8⟩] :=
  ⟨conv_bn_separable_spec.1 true 4 8 [3] [2] [1] [1] false 1 1 "batch" convBnSepEx rfl,
   conv_bn_separable_spec.2 true 4 8 [3] [2] [1] [1] false 1 1 "batch" convBnPlainEx rfl⟩

/-- Every element produced by a successful `exceptMapM` comes from a
successful application of the mapped function. -/
theorem exceptMapM_ok_mem {α β : Type} (f : α → Except PyError β) :
    ∀ (l : List α) (bs : List β), exceptMapM f l = .ok bs →
      ∀ b ∈ bs, ∃ a ∈ l, f a = .ok b := by
  intro l
  induction l with
  | nil =>
    intro bs h b hb
    have hbs := Except.ok.inj h
    subst hbs
    cases hb
  | cons a rest ih =>
    intro bs h b hb
    unfold exceptMapM at h
    cases hfa : f a with
    | error e =>
      rw [hfa] at h
      exact Except.noConfusion h
    | ok b0 =>
      rw [hfa] at h
      cases hrest : exceptMapM f rest with
      | error e =>
        rw [hrest] at h
        exact Except.noConfusion h
      | ok bs0 =>
        rw [hrest] at h
        have hbs := Except.ok.inj h
        subst hbs
        cases hb with
        | head => exact ⟨a, List.mem_cons_self _ _, hfa⟩
        | tail _ hb0 =>
          obtain ⟨a0, ha0, hfa0⟩ := ih bs0 hrest b hb0
          exact ⟨a0, List.mem_cons_of_mem _ ha0, hfa0⟩

/-- What `mkResiduals` produces: dense-residual flag, presence of the
residual branch list, and the stride of every residual convolution. -/
theorem mkResiduals_spec (cfg : BlockConfig)
    (rd : Option (List (List LayerSpec)) × Bool)
    (hok : mkResiduals cfg = .ok rd) :
    rd.2 = (cfg.residual && !cfg.residual_panes.isEmpty)
    ∧ rd.1.isSome = cfg.residual
    ∧ (cfg.residual = true →
        ∃ ll, rd.1 = some ll ∧ ∀ l ∈ ll, ∀ cs ∈ convsOf l,
          cs.stride = if cfg.residual_mode = "stride_add" then cfg.stride else [1]) := by
  by_cases hr : cfg.residual
  · simp only [mkResiduals, hr, if_true] at hok
    cases hmap : exceptMapM (fun ip =>
        getConvBnLayer cfg.conv_mask ip cfg.planes [1]
          (if cfg.residual_mode = "stride_add" then cfg.stride else [1]) [1] [0] false 1 (-1)
          false cfg.normalization cfg.norm_groups)
        (if cfg.residual_panes.isEmpty then [cfg.inplanes] else cfg.residual_panes) with
    | error e =>
      rw [hmap] at hok
      exact Except.noConfusion hok
    | ok rl =>
      rw [hmap] at hok
      have hrd := Except.ok.inj hok
      subst hrd
      refine ⟨?_, by rw [hr]; rfl, ?_⟩
      · by_cases hp : cfg.residual_panes.isEmpty <;> simp [hp, hr]
      · intro _
        refine ⟨rl, rfl, ?_⟩
        intro l hl cs hcs
        obtain ⟨ip, _, hipok⟩ := exceptMapM_ok_mem _ _ rl hmap l hl
        have hconvs := convsOf_convBn_plain cfg.conv_mask ip cfg.planes [1]
          (if cfg.residual_mode = "stride_add" then cfg.stride else [1]) [1] [0] false 1 (-1)
          cfg.normalization cfg.norm_groups l hipok
        rw [hconvs] at hcs
        rw [List.mem_singleton] at hcs
        subst hcs
        rfl
  · simp only [mkResiduals, hr, if_false, Bool.false_eq_true] at hok
    have hrd := Except.ok.inj hok
    subst hrd
    have hr' : cfg.residual = false := Bool.not_eq_true _ |>.mp hr
    refine ⟨by simp [hr'], by simp [hr'], ?_⟩
    intro hcontra
    rw [hr'] at hcontra
    cases hcontra

/-- A successful `mkJasperBlock` takes its residual data from
`mkResiduals`. -/
theorem mkJasperBlock_res (cfg : BlockConfig) (b : BlockSpec)
    (hok : mkJasperBlock cfg = .ok b) :
    ∃ rd, mkResiduals cfg = .ok rd ∧ b.res = rd.1 ∧ b.dense_residual = rd.2 := by
  unfold mkJasperBlock at hok
  by_cases hpad : cfg.padding ≠ "same"
  · rw [if_pos hpad] at hok
    exact Except.noConfusion hok
  · rw [if_neg hpad] at hok
    dsimp only [] at hok
    cases hk : headE (cfg.kernel_size.map
        (fun k => compute_new_kernel_size k cfg.kernel_size_factor)) with
    | error e =>
      rw [hk] at hok
      exact Except.noConfusion hok
    | ok k0 =>
      rw [hk] at hok
      dsimp only [] at hok
      cases hs : headE cfg.stride with
      | error e =>
        rw [hs] at hok
        exact Except.noConfusion hok
      | ok s0 =>
        rw [hs] at hok
        dsimp only [] at hok
        cases hd : headE cfg.dilation with
        | error e =>
          rw [hd] at hok
          exact Except.noConfusion hok
        | ok d0 =>
          rw [hd] at hok
          dsimp only [] at hok
          cases hp : get_same_padding k0 s0 d0 with
          | error e =>
            rw [hp] at hok
            exact Except.noConfusion hok
          | ok padding_val =>
            rw [hp] at hok
            dsimp only [] at hok
            cases hm : mkMconv cfg (cfg.kernel_size.map
                (fun k => compute_new_kernel_size k cfg.kernel_size_factor)) padding_val with
            | error e =>
              rw [hm] at hok
              exact Except.noConfusion hok
            | ok conv =>
              rw [hm] at hok
              dsimp only [] at hok
              cases hres : mkResiduals cfg with
              | error e =>
                rw [hres] at hok
                exact Except.noConfusion hok
              | ok rd =>
                rw [hres] at hok
                have hb := Except.ok.inj hok
                subst hb
                exact ⟨rd, rfl, rfl, rfl⟩

/-- Claim C3: a `JasperBlock` built with `residual=True` and non-empty
`residual_panes` is dense-residual and its `forward` returns
`xs + [out]`; with empty panes or `residual=False` forward returns the
singleton `[out]`; and under `residual_mode == 'stride_add'` the
pointwise residual convolutions are built with the block stride,
otherwise with stride 1. -/
theorem jasperBlock_residual_spec :
    (∀ (cfg : BlockConfig) (b : BlockSpec), mkJasperBlock cfg = .ok b →
      b.dense_residual = (cfg.residual && !cfg.residual_panes.isEmpty)
      ∧ b.res.isSome = cfg.residual
      ∧ (cfg.residual = true →
          ∃ ll, b.res = some ll ∧ ∀ l ∈ ll, ∀ cs ∈ convsOf l,
            cs.stride = if cfg.residual_mode = "stride_add" then cfg.stride else [1]))
    ∧ (∀ (sb : JasperBlockSem) (xs : List Tensor3) (lens : List ℤ),
        (sb.forward xs lens).1 =
          if sb.res.isSome && sb.dense_residual then xs ++ [blockOut sb xs lens]
          else [blockOut sb xs lens]) := by
  constructor
  · intro cfg b hok
    obtain ⟨rd, hres, hbres, hbdense⟩ := mkJasperBlock_res cfg b hok
    obtain ⟨h1, h2, h3⟩ := mkResiduals_spec cfg rd hres
    refine ⟨hbdense.trans h1, by rw [hbres]; exact h2, ?_⟩
    intro hr
    obtain ⟨ll, hll, hstr⟩ := h3 hr
    exact ⟨ll, hbres.trans hll, hstr⟩
  · intro sb xs lens
    rfl

theorem jasperBlock_residual_spec_inst :
    jbSpecEx.dense_residual = (cfgResEx.residual && !cfgResEx.residual_panes.isEmpty)
    ∧ (JasperBlockSem.forward jbEx [xEx] lensEx).1 = [blockOut jbEx [xEx] lensEx] :=
  ⟨(jasperBlock_residual_spec.1 cfgResEx jbSpecEx rfl).1,
   jasperBlock_residual_spec.2 jbEx [xEx] lensEx⟩

/-- Updating a dict binds the updated key to the new value. -/
theorem lookup_dictUpdate_self {M : Type} (k : String) (v : M) :
    ∀ (d : List (String × M)), lookupKey k (dictUpdate d k v) = some v := by
  have hmap : ∀ (d : List (String × M)), containsKey k d = true →
      lookupKey k (d.map (fun kv => if kv.1 = k then (k, v) else kv)) = some v := by
    intro d
    induction d with
    | nil => intro h; cases h
    | cons kv rest ih =>
      intro h
      by_cases hk : kv.1 = k
      · simp [lookupKey, hk]
      · unfold containsKey at h
        rw [if_neg hk] at h
        simp only [List.map_cons, if_neg hk]
        unfold lookupKey
        rw [if_neg hk]
        exact ih h
  have happ : ∀ (d : List (String × M)), containsKey k d = false →
      lookupKey k (d ++ [(k, v)]) = some v := by
    intro d
    induction d with
    | nil => simp [lookupKey]
    | cons kv rest ih =>
      intro h
      unfold containsKey at h
      by_cases hk : kv.1 = k
      · rw [if_pos hk] at h; cases h
      · rw [if_neg hk] at h
        simp only [List.cons_append]
        unfold lookupKey
        rw [if_neg hk]
        exact ih h
  intro d
  unfold dictUpdate
  by_cases hc : containsKey k d
  · rw [if_pos hc]; exact hmap d hc
  · rw [if_neg hc]; exact happ d (Bool.not_eq_true _ |>.mp hc)

/-- Updating a dict leaves every other key alone. -/
theorem lookup_dictUpdate_other {M : Type} (k k' : String) (v : M) (hne : k' ≠ k) :
    ∀ (d : List (String × M)), lookupKey k' (dictUpdate d k v) = lookupKey k' d := by
  have hmap : ∀ (d : List (String × M)),
      lookupKey k' (d.map (fun kv => if kv.1 = k then (k, v) else kv)) = lookupKey k' d := by
    intro d
    induction d with
    | nil => rfl
    | cons kv rest ih =>
      by_cases hk : kv.1 = k
      · have hk' : kv.1 ≠ k' := fun h => hne (h.symm.trans hk)
        simp only [List.map_cons, if_pos hk]
        unfold lookupKey
        rw [if_neg (fun h : k = k' => hne h.symm)]
        rw [if_neg hk']
        exact ih
      · simp only [List.map_cons, if_neg hk]
        unfold lookupKey
        by_cases hk' : kv.1 = k'
        · rw [if_pos hk', if_pos hk']
        · rw [if_neg hk', if_neg hk']
          exact ih
  have happ : ∀ (d : List (String × M)),
      lookupKey k' (d ++ [(k, v)]) = lookupKey k' d := by
    intro d
    induction d with
    | nil =>
      simp only [List.nil_append]
      unfold lookupKey
      rw [if_neg (fun h : k = k' => hne h.symm)]
      rfl
    | cons kv rest ih =>
      simp only [List.cons_append]
      unfold lookupKey
      by_cases hk' : kv.1 = k'
      · rw [if_pos hk', if_pos hk']
      · rw [if_neg hk', if_neg hk']
        exact ih
  intro d
  unfold dictUpdate
  by_cases hc : containsKey k d
  · rw [if_pos hc]; exact hmap d
  · rw [if_neg hc]; exact happ d

/-- Folding updates whose keys avoid `k` does not change the binding
of `k`. -/
theorem lookup_foldl_not_mem {M : Type} (restore : String → M) :
    ∀ (kvs : List (String × String)) (d : List (String × M)) (k : String),
      k ∉ kvs.map Prod.fst →
      lookupKey k (kvs.foldl (fun d kv => dictUpdate d kv.1 (restore kv.2)) d) =
        lookupKey k d := by
  intro kvs
  induction kvs with
  | nil => intro d k _; rfl
  | cons kv rest ih =>
    intro d k hk
    simp only [List.map_cons, List.mem_cons] at hk
    push_neg at hk
    simp only [List.foldl_cons]
    rw [ih _ k hk.2]
    exact lookup_dictUpdate_other kv.1 k (restore kv.2) hk.1 d

/-- With pairwise-distinct keys, folding the updates binds each key of
the config to its restored model. -/
theorem lookup_foldl_update {M : Type} (restore : String → M) :
    ∀ (kvs : List (String × String)) (d : List (String × M)) (kv : String × String),
      kv ∈ kvs → (kvs.map Prod.fst).Nodup →
      lookupKey kv.1 (kvs.foldl (fun d p => dictUpdate d p.1 (restore p.2)) d) =
        some (restore kv.2) := by
  intro kvs
  induction kvs with
  | nil => intro d kv h; cases h
  | cons kv0 rest ih =>
    intro d kv hmem hnodup
    simp only [List.map_cons, List.nodup_cons] at hnodup
    simp only [List.foldl_cons]
    rcases List.mem_cons.mp hmem with heq | hmem0
    · subst heq
      rw [lookup_foldl_not_mem restore rest _ kv.1 hnodup.1]
      exact lookup_dictUpdate_self kv.1 (restore kv.2) d
    · exact ih _ kv hmem0 hnodup.2

/-- Claim C6: service startup parses the config as JSON and, for every
key-value pair of the parsed mapping, restores a model from the path
and stores it under the key; it raises `ValueError` exactly when the
parsed document is `null`; an empty JSON object raises nothing and
leaves `MODELS_DICT` empty. -/
theorem nmt_service_init_spec {M : Type} (restore : String → M) (doc : PyJson)
    (models : List (String × M)) :
    ((∃ msg, initNmtService restore doc models = .error (.valueError msg)) ↔ doc = .null)
    ∧ (∀ kvs, doc = .obj kvs →
        initNmtService restore doc models =
          .ok (kvs.foldl (fun d kv => dictUpdate d kv.1 (restore kv.2)) models))
    ∧ initNmtService restore (.obj []) ([] : List (String × M)) = .ok []
    ∧ (∀ kvs d, doc = .obj kvs →
        initNmtService restore doc [] = .ok d →
        (kvs.map Prod.fst).Nodup →
        ∀ kv ∈ kvs, lookupKey kv.1 d = some (restore kv.2)) := by
  refine ⟨⟨?_, ?_⟩, ?_, rfl, ?_⟩
  · rintro ⟨msg, hmsg⟩
    cases doc with
    | null => rfl
    | obj kvs => exact Except.noConfusion hmsg
    | other => exact PyError.noConfusion (Except.error.inj hmsg)
  · intro h
    subst h
    exact ⟨"Did not find the config.json or it was empty", rfl⟩
  · intro kvs h
    subst h
    rfl
  · intro kvs d hdoc hok hnodup kv hkv
    subst hdoc
    have hd := Except.ok.inj hok
    subst hd
    exact lookup_foldl_update restore kvs [] kv hkv hnodup

theorem nmt_service_init_spec_inst :
    (∃ msg, initNmtService (M := String) id PyJson.null [] = .error (.valueError msg))
    ∧ lookupKey "en-de"
        (match initNmtService (M := String) id (PyJson.obj [("en-de", "model.nemo")]) [] with
         | .ok d => d
         | .error _ => []) = some "model.nemo" :=
  ⟨(nmt_service_init_spec (M := String) id PyJson.null []).1.mpr rfl,
   (nmt_service_init_spec (M := String) id (PyJson.obj [("en-de", "model.nemo")]) []).2.2.2
     [("en-de", "model.nemo")] _ rfl rfl (by simp) ("en-de", "model.nemo")
     (List.mem_singleton.mpr rfl)⟩

/-- Claim C10: a request whose language pair is not a key of
`MODELS_DICT` yields no response body (`None`); a JSON-encoded
translation comes back exactly for known keys. -/
theorem get_translation_spec {M : Type} (translate : M → String → String)
    (dumps : String → String) (models : List (String × M)) (langpair src : String) :
    (lookupKey langpair models = none →
      get_translation translate dumps models langpair src = none)
    ∧ (∀ s, get_translation translate dumps models langpair src = some s →
        ∃ m, lookupKey langpair models = some m ∧ s = dumps (translate m src))
    ∧ (∀ m, lookupKey langpair models = some m →
        get_translation translate dumps models langpair src =
          some (dumps (translate m src))) := by
  refine ⟨?_, ?_, ?_⟩
  · intro h
    simp [get_translation, h]
  · intro s hs
    unfold get_translation at hs
    cases hl : lookupKey langpair models with
    | none => rw [hl] at hs; exact Option.noConfusion hs
    | some m =>
      rw [hl] at hs
      exact ⟨m, rfl, (Option.some.inj hs).symm⟩
  · intro m hm
    simp [get_translation, hm]

theorem get_translation_spec_inst :
    get_translation (M := String) (fun m s => m ++ s) id [("en-de", "X")] "fr-en" "hi" =
      none :=
  (get_translation_spec (M := String) (fun m s => m ++ s) id [("en-de", "X")] "fr-en"
    "hi").1 (by decide)

/-- Claim C7: the forward passes of `GroupShuffle`, `StatsPoolLayer`
and `MaskedConv1d` are pure tensor transforms: two runs on equal
inputs with equal module parameters give equal outputs, and a run
leaves the module state unchanged. -/
theorem sublayers_pure_spec :
    (∀ (g1 g2 : GroupShuffle) (x : Tensor3),
      g1.groups = g2.groups → g1.channels_per_group = g2.channels_per_group →
      GroupShuffle.forward g1 x = GroupShuffle.forward g2 x
      ∧ (GroupShuffle.forwardS g1 x).2 = g1)
    ∧ (∀ (p1 p2 : StatsPoolLayer) (x : T3R),
      p1.pool_mode = p2.pool_mode → p1.feat_in = p2.feat_in →
      StatsPoolLayer.forward p1 x = StatsPoolLayer.forward p2 x
      ∧ (StatsPoolLayer.forwardS p1 x).2 = p1)
    ∧ (∀ (m1 m2 : MaskedConv1d) (x : Tensor3) (lens : List ℤ),
      m1.conv = m2.conv → m1.use_mask = m2.use_mask → m1.heads = m2.heads →
      m1.real_out_channels = m2.real_out_channels →
      MaskedConv1d.forward m1 x lens = MaskedConv1d.forward m2 x lens
      ∧ (MaskedConv1d.forwardS m1 x lens).2 = m1) := by
  refine ⟨?_, ?_, ?_⟩
  · intro g1 g2 x h1 h2
    obtain ⟨a1, b1⟩ := g1
    obtain ⟨a2, b2⟩ := g2
    simp only at h1 h2
    subst h1
    subst h2
    exact ⟨rfl, rfl⟩
  · intro p1 p2 x h1 h2
    obtain ⟨a1, b1⟩ := p1
    obtain ⟨a2, b2⟩ := p2
    simp only at h1 h2
    subst h1
    subst h2
    exact ⟨rfl, rfl⟩
  · intro m1 m2 x lens h1 h2 h3 h4
    obtain ⟨c1, u1, e1, r1⟩ := m1
    obtain ⟨c2, u2, e2, r2⟩ := m2
    simp only at h1 h2 h3 h4
    subst h1
    subst h2
    subst h3
    subst h4
    exact ⟨rfl, rfl⟩

/-- The head of a non-empty list is a member. -/
theorem headD_mem {α : Type} (l : List α) (d : α) (h : 0 < l.length) : l.headD d ∈ l := by
  cases l with
  | nil => simp at h
  | cons a r => exact List.mem_cons_self a r

/-- The sigmoid is strictly positive. -/
theorem sigmoid_pos (z : ℝ) : 0 < sigmoid z := by
  unfold sigmoid
  have h : (0 : ℝ) < 1 + Real.exp (-z) := by positivity
  positivity

/-- The sigmoid is strictly below 1. -/
theorem sigmoid_lt_one (z : ℝ) : sigmoid z < 1 := by
  unfold sigmoid
  rw [div_lt_one (by positivity)]
  linarith [Real.exp_pos (-z)]

theorem length_transposeLLR (m : List (List ℝ)) :
    (transposeLLR m).length = (m.headD []).length := by
  simp [transposeLLR]

theorem mem_transposeLLR_length (m : List (List ℝ)) (r : List ℝ)
    (h : r ∈ transposeLLR m) : r.length = m.length := by
  unfold transposeLLR at h
  rw [List.mem_map] at h
  obtain ⟨t, _, rfl⟩ := h
  simp

theorem length_matVec (W : List (List ℝ)) (v : List ℝ) :
    (matVec W v).length = W.length := by
  simp [matVec]

theorem length_fcApply (se : SqueezeExcite) (v : List ℝ) :
    (fcApply se v).length = se.fcW2.length := by
  simp [fcApply, length_matVec]

theorem length_interpNearest (T : ℕ) (row : List ℝ) :
    (interpNearest T row).length = T := by
  simp [interpNearest]

theorem length_avgWindow (cw : ℕ) (row : List ℝ) :
    (avgWindow cw row).length = row.length + 1 - cw := by
  simp [avgWindow]

/-- `perBatchGate` with its let bindings unfolded. -/
theorem perBatchGate_eq (se : SqueezeExcite) (T : ℕ) (mat : List (List ℝ)) :
    perBatchGate se T mat =
      ((if 0 < se.context_window then
          (transposeLLR ((transposeLLR (poolStage se mat)).map (fcApply se))).map
            (interpNearest T)
        else transposeLLR ((transposeLLR (poolStage se mat)).map (fcApply se))).map
        (List.map sigmoid)) := rfl

/-- Shape and content of the squeeze-excitation gate on one batch
element: `C` channel rows, each of length 1 (global context) or `T`
(windowed context), and every entry a sigmoid value. -/
theorem perBatchGate_shape (se : SqueezeExcite) (T C : ℕ) (mat : List (List ℝ))
    (hC : mat.length = C) (hrows : ∀ row ∈ mat, row.length = T) (hCpos : 0 < C)
    (hW2 : se.fcW2.length = C)
    (hcw : 0 < se.context_window → se.context_window.toNat ≤ T ∧ 0 < T) :
    (perBatchGate se T mat).length = C
    ∧ ∀ gr ∈ perBatchGate se T mat,
        gr.length = (if se.context_window ≤ 0 then 1 else T)
        ∧ ∀ v ∈ gr, ∃ z, v = sigmoid z := by
  have hmatne : 0 < mat.length := hC ▸ hCpos
  have hpooled_len : (poolStage se mat).length = C := by
    unfold poolStage
    split <;> simp [hC]
  have hpooled_head : ((poolStage se mat).headD []).length =
      (if se.context_window ≤ 0 then 1 else T + 1 - se.context_window.toNat) := by
    by_cases hcw0 : se.context_window ≤ 0
    · cases mat with
      | nil => simp at hmatne
      | cons m0 mrest => simp [poolStage, hcw0]
    · cases mat with
      | nil => simp at hmatne
      | cons m0 mrest =>
        have hm0 : m0.length = T := hrows m0 (List.mem_cons_self _ _)
        simp [poolStage, hcw0, length_avgWindow, hm0]
  set T1 := if se.context_window ≤ 0 then 1 else T + 1 - se.context_window.toNat
    with hT1def
  have hT1pos : 0 < T1 := by
    rw [hT1def]
    by_cases hcw0 : se.context_window ≤ 0
    · simp [hcw0]
    · have h := hcw (not_le.mp hcw0)
      rw [if_neg hcw0]
      omega
  have htp_len : (transposeLLR (poolStage se mat)).length = T1 := by
    rw [length_transposeLLR, hpooled_head]
  have hfced_len : ((transposeLLR (poolStage se mat)).map (fcApply se)).length = T1 := by
    rw [List.length_map, htp_len]
  have hfced_rows : ∀ r ∈ (transposeLLR (poolStage se mat)).map (fcApply se),
      r.length = C := by
    intro r hr
    rw [List.mem_map] at hr
    obtain ⟨v, _, rfl⟩ := hr
    rw [length_fcApply, hW2]
  have hfced_head :
      (((transposeLLR (poolStage se mat)).map (fcApply se)).headD []).length = C := by
    apply hfced_rows
    apply headD_mem
    rw [hfced_len]
    exact hT1pos
  have hback_len :
      (transposeLLR ((transposeLLR (poolStage se mat)).map (fcApply se))).length = C := by
    rw [length_transposeLLR, hfced_head]
  have hback_rows : ∀ r ∈ transposeLLR ((transposeLLR (poolStage se mat)).map
      (fcApply se)), r.length = T1 := by
    intro r hr
    rw [mem_transposeLLR_length _ r hr, hfced_len]
  rw [perBatchGate_eq]
  by_cases hcwpos : 0 < se.context_window
  · rw [if_pos hcwpos]
    constructor
    · rw [List.length_map, List.length_map, hback_len]
    · intro gr hgr
      rw [List.mem_map] at hgr
      obtain ⟨r, hr, rfl⟩ := hgr
      rw [List.mem_map] at hr
      obtain ⟨r0, hr0, rfl⟩ := hr
      constructor
      · rw [List.length_map, length_interpNearest, if_neg (not_le.mpr hcwpos)]
      · intro v hv
        rw [List.mem_map] at hv
        obtain ⟨w, _, rfl⟩ := hv
        exact ⟨w, rfl⟩
  · rw [if_neg hcwpos]
    constructor
    · rw [List.length_map, hback_len]
    · intro gr hgr
      rw [List.mem_map] at hgr
      obtain ⟨r, hr, rfl⟩ := hgr
      constructor
      · have hcw0 : se.context_window ≤ 0 := not_lt.mp hcwpos
        rw [List.length_map, hback_rows r hr, hT1def, if_pos hcw0, if_pos hcw0]
      · intro v hv
        rw [List.mem_map] at hv
        obtain ⟨w, _, rfl⟩ := hv
        exact ⟨w, rfl⟩

/-- Claim C5: `SqueezeExcite.forward` returns the input multiplied
elementwise by the gate `sigmoid(fc(pool(x)))` broadcast over time, so
every in-shape output entry is the corresponding input entry rescaled
by a factor strictly between 0 and 1; the pooled context is the global
time average when `context_window <= 0` and a stride-1 average over
`context_window` timesteps (interpolated back to `T` steps) when
`context_window > 0`. -/
theorem squeezeExcite_forward_spec (se : SqueezeExcite) (x : T3R) (B C T : ℕ)
    (hB : x.length = B)
    (hx : ∀ mat ∈ x, mat.length = C ∧ ∀ row ∈ mat, row.length = T)
    (hW2 : se.fcW2.length = C)
    (hcw : 0 < se.context_window → se.context_window.toNat ≤ T) :
    SqueezeExcite.forward se x = broadcastMul x (seGate se x)
    ∧ (se.context_window ≤ 0 →
        ∀ mat, poolStage se mat = mat.map (fun row => [listMean row]))
    ∧ (0 < se.context_window →
        ∀ mat, poolStage se mat = mat.map (avgWindow se.context_window.toNat))
    ∧ (∀ b c t, b < B → c < C → t < T →
        ∃ g, 0 < g ∧ g < 1 ∧
          entry3 (SqueezeExcite.forward se x) b c t = g * entry3 x b c t) := by
  refine ⟨rfl, ?_, ?_, ?_⟩
  · intro h mat
    unfold poolStage
    rw [if_pos h]
  · intro h mat
    unfold poolStage
    rw [if_neg (not_le.mpr h)]
  · intro b c t hb hc ht
    have hbx : b < x.length := hB ▸ hb
    have hBpos : 0 < x.length := Nat.lt_of_le_of_lt (Nat.zero_le b) hbx
    have hCpos : 0 < C := Nat.lt_of_le_of_lt (Nat.zero_le c) hc
    have hx0 : x.headD [] ∈ x := headD_mem x [] hBpos
    obtain ⟨hx0C, hx0rows⟩ := hx _ hx0
    have hrow0 : (x.headD []).headD [] ∈ x.headD [] := by
      apply headD_mem
      rw [hx0C]
      exact hCpos
    have hts : ((x.headD []).headD []).length = T := hx0rows _ hrow0
    have hgate : seGate se x = x.map (perBatchGate se T) := by
      unfold seGate
      rw [hts]
    set mat := x.getD b [] with hmatdef
    have hmatmem : mat ∈ x := getD_mem x b [] hbx
    obtain ⟨hmatC, hmatrows⟩ := hx mat hmatmem
    have h1 : (SqueezeExcite.forward se x).getD b [] =
        List.zipWith mulRowR mat (perBatchGate se T mat) := by
      show (broadcastMul x (seGate se x)).getD b [] = _
      rw [hgate]
      unfold broadcastMul
      rw [getD_zipWith (fun xm ym => List.zipWith mulRowR xm ym) [] [] [] x
        (x.map (perBatchGate se T)) b hbx (by simpa using hbx)]
      rw [getD_map (perBatchGate se T) [] [] x b hbx]
    have hcwand : 0 < se.context_window → se.context_window.toNat ≤ T ∧ 0 < T :=
      fun h => ⟨hcw h, Nat.lt_of_le_of_lt (Nat.zero_le t) ht⟩
    obtain ⟨hglen2, hgrows⟩ := perBatchGate_shape se T C mat hmatC hmatrows hCpos hW2 hcwand
    have hcx : c < mat.length := hmatC ▸ hc
    have hcg : c < (perBatchGate se T mat).length := hglen2 ▸ hc
    have h2 : (List.zipWith mulRowR mat (perBatchGate se T mat)).getD c [] =
        mulRowR (mat.getD c []) ((perBatchGate se T mat).getD c []) :=
      getD_zipWith mulRowR [] [] [] mat _ c hcx hcg
    set xr := mat.getD c [] with hxrdef
    set gr := (perBatchGate se T mat).getD c [] with hgrdef
    have hxrT : xr.length = T := hmatrows xr (getD_mem mat c [] hcx)
    have hgrmem : gr ∈ perBatchGate se T mat := getD_mem _ c [] hcg
    obtain ⟨hgrlen, hgrsig⟩ := hgrows gr hgrmem
    have htxr : t < xr.length := hxrT ▸ ht
    have hentry : entry3 (SqueezeExcite.forward se x) b c t = (mulRowR xr gr).getD t 0 := by
      unfold entry3
      rw [h1, h2]
    have hxentry : entry3 x b c t = xr.getD t 0 := rfl
    by_cases hbr : gr.length = 1
    · have hg0 : gr.getD 0 0 ∈ gr := getD_mem gr 0 0 (by omega)
      obtain ⟨z, hz⟩ := hgrsig _ hg0
      refine ⟨gr.getD 0 0, by rw [hz]; exact sigmoid_pos z,
        by rw [hz]; exact sigmoid_lt_one z, ?_⟩
      rw [hentry, hxentry]
      unfold mulRowR
      rw [if_pos hbr]
      rw [getD_map (fun v => v * gr.getD 0 0) 0 0 xr t htxr]
      ring
    · have hgrT : gr.length = T := by
        by_cases hcw0 : se.context_window ≤ 0
        · rw [if_pos hcw0] at hgrlen
          exact absurd hgrlen hbr
        · rw [if_neg hcw0] at hgrlen
          exact hgrlen
      have htgr : t < gr.length := hgrT ▸ ht
      have hgt : gr.getD t 0 ∈ gr := getD_mem gr t 0 htgr
      obtain ⟨z, hz⟩ := hgrsig _ hgt
      refine ⟨gr.getD t 0, by rw [hz]; exact sigmoid_pos z,
        by rw [hz]; exact sigmoid_lt_one z, ?_⟩
      rw [hentry, hxentry]
      unfold mulRowR
      rw [if_neg hbr]
      rw [getD_zipWith (· * ·) 0 0 0 xr gr t htxr htgr]
      ring

theorem squeezeExcite_forward_spec_inst :
    ∃ g : ℝ, 0 < g ∧ g < 1 ∧
      entry3 (SqueezeExcite.forward seEx xRealEx) 0 0 1 = g * entry3 xRealEx 0 0 1 :=
  (squeezeExcite_forward_spec seEx xRealEx 1 1 2 rfl
    (by
      intro mat hm
      simp only [xRealEx, List.mem_singleton] at hm
      subst hm
      refine ⟨rfl, ?_⟩
      intro row hr
      rw [List.mem_singleton] at hr
      subst hr
      rfl)
    rfl
    (by
      intro h
      exact absurd h (by decide))).2.2.2 0 0 1 (by decide) (by decide) (by decide)

theorem sublayers_pure_spec_inst :
    GroupShuffle.forward (mkGroupShuffle 2 4) xEx = GroupShuffle.forward ⟨2, 2⟩ xEx
    ∧ StatsPoolLayer.forward (mkStatsPoolLayer 3 "xvector") xRealEx =
        StatsPoolLayer.forward ⟨"xvector", 6⟩ xRealEx
    ∧ (MaskedConv1d.forwardS mcMaskedEx xEx lensEx).2 = mcMaskedEx :=
  ⟨(sublayers_pure_spec.1 (mkGroupShuffle 2 4) ⟨2, 2⟩ xEx rfl rfl).1,
   (sublayers_pure_spec.2.1 (mkStatsPoolLayer 3 "xvector") ⟨"xvector", 6⟩ xRealEx rfl
     rfl).1,
   (sublayers_pure_spec.2.2 mcMaskedEx mcMaskedEx xEx lensEx rfl rfl rfl rfl).2⟩

end NeMoSpec
